import Mathlib

/-
Verification of the FATURA-template field-normalization engine
(`src/data_cleaning.py` and `src/json_to_csv.py`).

The Python code is shallowly embedded: strings become `List Char`
manipulations, floats become exact rationals (all arithmetic performed by
the code on amounts is decimal parsing and negation, which is exact),
pandas DataFrames become a `Df` structure holding a column list and a list
of rows (a row is a function from column name to optional cell).  CSV input
cells are strings or missing, matching what `pd.read_csv` feeds into
`clean_template_df` in this repository.

Modelling notes, where the embedding narrows Python semantics to the cases
this repository exercises:
 * `\s` in the Python regexes is modelled as ASCII whitespace
   (space, tab, newline, carriage return, vertical tab, form feed);
 * `str.splitlines` is modelled as splitting on a newline character;
 * `float(...)` is modelled as exact decimal-to-rational parsing of the
   token shapes the numeric regex can produce (the `except ValueError`
   branch of `parse_amount_and_currency` is unreachable for those shapes).
-/

attribute [local semireducible] Rat.add Rat.mul Rat.inv Rat.sub

namespace DataCleaning

/-! ### Character helpers -/

/-- ASCII whitespace, the characters matched by `\s` in the Python regexes
for ASCII inputs. -/
def isSpaceC (c : Char) : Bool :=
  c == ' ' || c == '\t' || c == '\n' || c == '\r' || c == '\x0b' || c == '\x0c'

/-- ASCII uppercasing, the model of Python `str.upper` on ASCII text. -/
def upChar (c : Char) : Char :=
  if 'a' ≤ c ∧ c ≤ 'z' then Char.ofNat (c.toNat - 32) else c

/-- ASCII lowercasing, the model of Python `str.lower` on ASCII text. -/
def downChar (c : Char) : Char :=
  if 'A' ≤ c ∧ c ≤ 'Z' then Char.ofNat (c.toNat + 32) else c

def upList (l : List Char) : List Char := l.map upChar

def lowList (l : List Char) : List Char := l.map downChar

/-! ### `clean_spaces`: collapse whitespace runs and strip the ends -/

/-- One pass of `re.sub(r"\s+", " ", s)`: every maximal run of whitespace
becomes a single space.  The boolean records whether the previous character
was whitespace (i.e. we are inside a run that already emitted its space). -/
def collapseAux : Bool → List Char → List Char
  | _, [] => []
  | prevSpace, c :: cs =>
    if isSpaceC c then
      if prevSpace then collapseAux true cs
      else ' ' :: collapseAux true cs
    else c :: collapseAux false cs

/-- Strip leading characters satisfying `p` from both ends. -/
def stripBoth (p : Char → Bool) (l : List Char) : List Char :=
  ((l.dropWhile p).reverse.dropWhile p).reverse

/-- `clean_spaces` from `data_cleaning.py` on a string's characters:
collapse whitespace runs to single spaces, then strip both ends. -/
def cleanSpacesL (l : List Char) : List Char :=
  stripBoth isSpaceC (collapseAux false l)

def clean_spaces (s : String) : String := String.mk (cleanSpacesL s.data)

/-! ### Substring search -/

def startsWithL : List Char → List Char → Bool
  | [], _ => true
  | _ :: _, [] => false
  | p :: ps, c :: cs => p == c && startsWithL ps cs

/-- `pat in l` for Python strings: `pat` occurs as a contiguous substring. -/
def containsL (pat : List Char) : List Char → Bool
  | [] => pat.isEmpty
  | c :: cs => startsWithL pat (c :: cs) || containsL pat cs

/-! ### Currency detection -/

/-- The fixed ISO-code whitelist of `parse_amount_and_currency`, in the
order the regex alternation lists them. -/
def codesList : List (List Char) :=
  [['U','S','D'], ['E','U','R'], ['I','N','R'], ['G','B','P'], ['A','E','D'],
   ['S','G','D'], ['A','U','D'], ['C','A','D'], ['J','P','Y'], ['C','N','Y']]

/-- Word characters for the regex `\b` boundary (ASCII part of `\w`). -/
def isWordChar (c : Char) : Bool := c.isAlphanum || c == '_'

/-- Case-insensitive comparison of a prefix of `l` against the (uppercase)
code letters, the effect of matching the alternation under `re.I`. -/
def startsWithUp : List Char → List Char → Bool
  | [], _ => true
  | _ :: _, [] => false
  | p :: ps, c :: cs => p == upChar c && startsWithUp ps cs

/-- Does the whole-word pattern `\b<code>\b` match at the current position,
whose previous character (if any) is `prev`? -/
def matchesHere (prev : Option Char) (l : List Char) (code : List Char) : Bool :=
  (match prev with
   | none => true
   | some c => !isWordChar c) &&
  startsWithUp code l &&
  (match (l.drop code.length).head? with
   | none => true
   | some c => !isWordChar c)

/-- `re.search(r"\b(USD|...)\b", t, re.I)`: leftmost position wins, and at a
position the first alternative in pattern order wins. -/
def findCodeAux (prev : Option Char) : List Char → Option (List Char)
  | [] => none
  | c :: cs =>
    match codesList.find? (fun code => matchesHere prev (c :: cs) code) with
    | some code => some code
    | none => findCodeAux (some c) cs

def currencySymbols : List Char := ['€', '$', '₹', '£']

/-- `re.search(r"[€$₹£]", t)`: the first currency symbol in the text. -/
def findSymbol : List Char → Option Char
  | [] => none
  | c :: cs => if currencySymbols.contains c then some c else findSymbol cs

/-- `_CURRENCY_MAP` from `data_cleaning.py`. -/
def symbolCode (c : Char) : Option String :=
  if c == '€' then some "EUR"
  else if c == '$' then some "USD"
  else if c == '₹' then some "INR"
  else if c == '£' then some "GBP"
  else none

/-- Currency detection of `parse_amount_and_currency`: a whole-word ISO code
(uppercased) first, a currency symbol mapped through `_CURRENCY_MAP`
otherwise. -/
def detectCurrency (l : List Char) : Option String :=
  match findCodeAux none l with
  | some code => some (String.mk code)
  | none => (findSymbol l).bind symbolCode

/-! ### Numeric token scanning

The Python regex is `[-+]?\d{1,3}(?:,\d{3})*(?:\.\d+)?|[-+]?\d+(?:\.\d+)?`.
At any position, the first alternative matches exactly when an optional
sign is followed by a digit — which is also exactly when the second
alternative matches — so the first alternative always wins and the second
is unreachable.  Since everything after `\d{1,3}` is optional, no
backtracking is ever forced: the match is sign, then up to three digits
greedily, then as many full `,ddd` groups as possible, then `.d+` if
present.  `re.findall` scans left to right, resuming after each match. -/

/-- Take up to `n` leading digits. -/
def takeDigitsUpTo : Nat → List Char → List Char × List Char
  | 0, l => ([], l)
  | _ + 1, [] => ([], [])
  | n + 1, c :: cs =>
    if c.isDigit then
      let p := takeDigitsUpTo n cs
      (c :: p.1, p.2)
    else ([], c :: cs)

/-- Consume maximal full `,ddd` thousands groups. -/
def takeGroups : List Char → List Char × List Char
  | ',' :: a :: b :: c :: rest =>
    if a.isDigit && b.isDigit && c.isDigit then
      let p := takeGroups rest
      (',' :: a :: b :: c :: p.1, p.2)
    else ([], ',' :: a :: b :: c :: rest)
  | l => ([], l)

/-- Consume `.d+` (a dot followed by at least one digit), greedily. -/
def takeFrac : List Char → List Char × List Char
  | '.' :: c :: rest =>
    if c.isDigit then
      ('.' :: (c :: rest).takeWhile Char.isDigit, (c :: rest).dropWhile Char.isDigit)
    else ([], '.' :: c :: rest)
  | l => ([], l)

/-- The numeric-token body starting at a digit. -/
def matchCore (l : List Char) : Option (List Char × List Char) :=
  match takeDigitsUpTo 3 l with
  | ([], _) => none
  | (ds, r1) =>
    let g := takeGroups r1
    let f := takeFrac g.2
    some (ds ++ g.1 ++ f.1, f.2)

/-- Attempt a numeric-token match at the current position. -/
def matchNum : List Char → Option (List Char × List Char)
  | [] => none
  | c :: cs =>
    if c == '-' || c == '+' then
      match cs with
      | d :: _ =>
        if d.isDigit then (matchCore cs).map (fun p => (c :: p.1, p.2)) else none
      | [] => none
    else if c.isDigit then matchCore (c :: cs)
    else none

/-- Left-to-right scan, fuelled by the input length (each successful match
consumes at least one character, so the fuel never runs out early). -/
def scanAux : Nat → List Char → List (List Char)
  | 0, _ => []
  | _ + 1, [] => []
  | n + 1, c :: cs =>
    match matchNum (c :: cs) with
    | some p => p.1 :: scanAux n p.2
    | none => scanAux n cs

/-- `re.findall` of the numeric-token regex. -/
def findNums (l : List Char) : List (List Char) := scanAux l.length l

/-! ### Decimal-to-rational conversion, the model of Python `float` -/

def digitVal (c : Char) : Nat := c.toNat - 48

def intOfDigits (ds : List Char) : ℚ :=
  ds.foldl (fun acc c => acc * 10 + (digitVal c : ℚ)) 0

def fracOfDigits (fs : List Char) : ℚ :=
  intOfDigits fs / (10 : ℚ) ^ fs.length

def applySign (sgn : Bool) (v : ℚ) : ℚ := if sgn then -v else v

/-- `float(token)` on the (comma-stripped) token shapes the numeric regex
produces: an optional sign, digits, then optionally a dot and digits. -/
def parseFloat (l : List Char) : Option ℚ :=
  let p : Bool × List Char :=
    match l with
    | c :: r =>
      if c == '-' then (true, r) else if c == '+' then (false, r) else (false, c :: r)
    | [] => (false, [])
  let ds := p.2.takeWhile Char.isDigit
  let r2 := p.2.dropWhile Char.isDigit
  if ds = [] then none
  else
    match r2 with
    | [] => some (applySign p.1 (intOfDigits ds))
    | '.' :: r3 =>
      let fs := r3.takeWhile Char.isDigit
      let r4 := r3.dropWhile Char.isDigit
      if fs = [] then none
      else if r4 = [] then some (applySign p.1 (intOfDigits ds + fracOfDigits fs))
      else none
    | _ => none

/-! ### Discount-sign detection -/

def discountPat : List Char := ['D','I','S','C','O','U','N','T']

def parenMinusLit : List Char := ['(', '-', ')']

/-- The part of `\(\s*-\s*\)` after the opening parenthesis: maximal
whitespace, `-`, maximal whitespace, `)`.  After each maximal whitespace run
the next character is forced, so the match is deterministic. -/
def parenAfter (rest : List Char) : Bool :=
  match rest.dropWhile isSpaceC with
  | '-' :: r2 =>
    (match r2.dropWhile isSpaceC with
     | ')' :: _ => true
     | _ => false)
  | _ => false

/-- `re.search(r"\(\s*-\s*\)", t)`: try the pattern at each position. -/
def parenMinusScan : List Char → Bool
  | [] => false
  | c :: rest => (c == '(' && parenAfter rest) || parenMinusScan rest

/-- The discount condition of `parse_amount_and_currency`:
`"DISCOUNT" in t.upper() or "(-)" in t or re.search(r"\(\s*-\s*\)", t)`. -/
def discountFlag (t : List Char) : Bool :=
  containsL discountPat (upList t) || containsL parenMinusLit t || parenMinusScan t

/-! ### `parse_amount_and_currency` -/

def parse_amount_and_currency (text : String) : Option ℚ × Option String :=
  let t := cleanSpacesL text.data
  if t = [] then (none, none)
  else
    let currency := detectCurrency t
    let nums := findNums t
    match nums.getLast? with
    | none => (none, currency)
    | some tok =>
      match parseFloat (tok.filter (fun c => !(c == ','))) with
      | none => (none, currency)
      | some a =>
        let a2 := if discountFlag t then -|a| else a
        (some a2, currency)

/-! ### `normalize_date`

Python `strptime` compiles each format into an anchored regex
(`%d ↦ 3[01]|[12]\d|0[1-9]|[1-9]`, `%m ↦ 1[0-2]|0[1-9]|[1-9]`,
`%Y ↦ \d\d\d\d`, `%b`/`%B` ↦ the month names, case-insensitively) and then
validates the calendar date, raising `ValueError` (caught, moving to the
next format) on failure.  Since the separator characters cannot occur
inside the field patterns, matching is equivalent to splitting on the
separator and checking each part. -/

/-- Split on a separator character (every occurrence, keeping empty parts),
like the decomposition `strptime`'s compiled regex performs. -/
def splitOnC (sep : Char) : List Char → List (List Char)
  | [] => [[]]
  | c :: cs =>
    match splitOnC sep cs with
    | [] => [[c]]
    | p :: ps => if c == sep then [] :: p :: ps else (c :: p) :: ps

/-- A 1–2 digit field with value in `1..hi` (the `%d`/`%m` patterns: `00` and
3-digit forms are rejected). -/
def parse2 (hi : Nat) (p : List Char) : Option Nat :=
  if p.all Char.isDigit ∧ (p.length = 1 ∨ p.length = 2) then
    let v := p.foldl (fun acc c => acc * 10 + digitVal c) 0
    if 1 ≤ v ∧ v ≤ hi then some v else none
  else none

/-- The `%Y` pattern: exactly four digits. -/
def parse4 (p : List Char) : Option Nat :=
  if p.all Char.isDigit ∧ p.length = 4 then
    some (p.foldl (fun acc c => acc * 10 + digitVal c) 0)
  else none

def monthAbbrevs : List (List Char) :=
  [['j','a','n'], ['f','e','b'], ['m','a','r'], ['a','p','r'], ['m','a','y'],
   ['j','u','n'], ['j','u','l'], ['a','u','g'], ['s','e','p'], ['o','c','t'],
   ['n','o','v'], ['d','e','c']]

def monthFulls : List (List Char) :=
  [['j','a','n','u','a','r','y'], ['f','e','b','r','u','a','r','y'],
   ['m','a','r','c','h'], ['a','p','r','i','l'], ['m','a','y'],
   ['j','u','n','e'], ['j','u','l','y'], ['a','u','g','u','s','t'],
   ['s','e','p','t','e','m','b','e','r'], ['o','c','t','o','b','e','r'],
   ['n','o','v','e','m','b','e','r'], ['d','e','c','e','m','b','e','r']]

/-- A month-name field (`%b` or `%B`), matched case-insensitively. -/
def monthName (names : List (List Char)) (p : List Char) : Option Nat :=
  (names.findIdx? (fun n => n == lowList p)).map (· + 1)

/-- `%d-%b-%Y` and `%d-%B-%Y`. -/
def try_dNameY (names : List (List Char)) (l : List Char) : Option (Nat × Nat × Nat) :=
  match splitOnC '-' l with
  | [d, b, y] => do
    let dd ← parse2 31 d
    let mm ← monthName names b
    let yy ← parse4 y
    some (yy, mm, dd)
  | _ => none

/-- `%d/%m/%Y` (sep `/`) and `%d-%m-%Y` (sep `-`). -/
def try_dmY (sep : Char) (l : List Char) : Option (Nat × Nat × Nat) :=
  match splitOnC sep l with
  | [d, m, y] => do
    let dd ← parse2 31 d
    let mm ← parse2 12 m
    let yy ← parse4 y
    some (yy, mm, dd)
  | _ => none

/-- `%Y-%m-%d`. -/
def try_Ymd (l : List Char) : Option (Nat × Nat × Nat) :=
  match splitOnC '-' l with
  | [y, m, d] => do
    let yy ← parse4 y
    let mm ← parse2 12 m
    let dd ← parse2 31 d
    some (yy, mm, dd)
  | _ => none

/-- `%m/%d/%Y`. -/
def try_mdY (l : List Char) : Option (Nat × Nat × Nat) :=
  match splitOnC '/' l with
  | [m, d, y] => do
    let mm ← parse2 12 m
    let dd ← parse2 31 d
    let yy ← parse4 y
    some (yy, mm, dd)
  | _ => none

def isLeap (y : Nat) : Bool := y % 4 = 0 && (y % 100 ≠ 0 || y % 400 = 0)

def daysInMonth (y m : Nat) : Nat :=
  if m = 2 then (if isLeap y then 29 else 28)
  else if m = 4 ∨ m = 6 ∨ m = 9 ∨ m = 11 then 30
  else 31

def digitChar (n : Nat) : Char := Char.ofNat (48 + n)

def pad2 (n : Nat) : List Char := [digitChar (n / 10 % 10), digitChar (n % 10)]

def pad4 (n : Nat) : List Char :=
  [digitChar (n / 1000 % 10), digitChar (n / 100 % 10),
   digitChar (n / 10 % 10), digitChar (n % 10)]

/-- `datetime` construction plus `strftime("%Y-%m-%d")`: validate the
calendar date (`datetime` requires year ≥ 1) and render it zero-padded. -/
def mkISO (ymd : Nat × Nat × Nat) : Option String :=
  if 1 ≤ ymd.1 ∧ ymd.2.2 ≤ daysInMonth ymd.1 ymd.2.1 then
    some (String.mk (pad4 ymd.1 ++ '-' :: pad2 ymd.2.1 ++ '-' :: pad2 ymd.2.2))
  else none

/-- The format list of `normalize_date`, in source order. -/
def dateFmts : List (List Char → Option (Nat × Nat × Nat)) :=
  [try_dNameY monthAbbrevs, try_dNameY monthFulls,
   try_dmY '/', try_dmY '-', try_Ymd, try_mdY]

/-- `t.split(":", 1)[1].strip()` applied when a colon is present. -/
def afterLabel (t : List Char) : List Char :=
  if t.contains ':' then stripBoth isSpaceC ((t.dropWhile (fun c => !(c == ':'))).tail)
  else t

def normalize_date (text : String) : Option String :=
  let t := cleanSpacesL text.data
  if t = [] then none
  else dateFmts.findSome? (fun p => (p (afterLabel t)).bind mkISO)

/-! ### `split_address_block` -/

structure AddressRecord where
  name : Option String
  addr_line1 : Option String
  addr_line2 : Option String
  city_state_postal_country : Option String
  tel : Option String
  email : Option String
  site : Option String
  raw : Option String
deriving DecidableEq, Repr

def emptyAddress : AddressRecord :=
  ⟨none, none, none, none, none, none, none, none⟩

/-- `[l.strip() for l in str(text).splitlines() if l.strip()]`
(`splitlines` modelled as splitting on a newline). -/
def linesOf (text : String) : List (List Char) :=
  ((splitOnC '\n' text.data).map (stripBoth isSpaceC)).filter (fun l => !l.isEmpty)

def telPat : List Char := ['t','e','l']
def emailPat : List Char := ['e','m','a','i','l']
def sitePat : List Char := ['s','i','t','e']
def httpPat : List Char := ['h','t','t','p']
def wwwPat : List Char := ['w','w','w']

/-- `line.split(":", 1)[-1].strip() if ":" in line else line`. -/
def colonValue (line : List Char) : String :=
  if line.contains ':' then
    String.mk (stripBoth isSpaceC ((line.dropWhile (fun c => !(c == ':'))).tail))
  else String.mk line

/-- One iteration of the classification loop: `tel`, `elif email`,
`elif site or http or www`; later lines overwrite earlier assignments. -/
def classifyLine (rec : AddressRecord) (line : List Char) : AddressRecord :=
  let low := lowList line
  if startsWithL telPat low then { rec with tel := some (colonValue line) }
  else if startsWithL emailPat low then { rec with email := some (colonValue line) }
  else if startsWithL sitePat low || containsL httpPat low || startsWithL wwwPat low then
    { rec with site := some (colonValue line) }
  else rec

/-- The address-candidate filter of the source:
`[l for l in lines if not l.lower().startswith(("tel", "email", "site"))]`. -/
def addrCandidates (lines : List (List Char)) : List (List Char) :=
  lines.filter (fun l =>
    !(startsWithL telPat (lowList l) || startsWithL emailPat (lowList l) ||
      startsWithL sitePat (lowList l)))

def split_address_block (text : String) : AddressRecord :=
  let lines := linesOf text
  if lines = [] then emptyAddress
  else
    let rec0 := { emptyAddress with
      raw := some (String.mk (List.intercalate [' ', '|', ' '] lines)) }
    let rec1 := lines.foldl classifyLine rec0
    match addrCandidates lines with
    | [] => rec1
    | a0 :: rest0 =>
      let r0 := { rec1 with name := some (String.mk a0) }
      match rest0 with
      | [] => r0
      | a1 :: rest1 =>
        let r1 := { r0 with addr_line1 := some (String.mk a1) }
        match rest1 with
        | [] => r1
        | a2 :: rest2 =>
          let r2 := { r1 with addr_line2 := some (String.mk a2) }
          match rest2 with
          | [] => r2
          | a3 :: _ =>
            { r2 with city_state_postal_country := some (String.mk a3) }

/-! ### `clean_template_df`

A DataFrame is modelled as a column-name list plus a list of rows; a raw
row maps a column name to an optional string (a `pd.read_csv` cell: string
or NaN), a cleaned row maps a column name to an optional cell that is a
string or a rational amount.  Row functions are total; only the names in
`cols` are meaningful.  `pd.concat` of the address columns is modelled as
column assignment (it differs from pandas only when the input already
contains a `BUYER_*`/`SELLER_*`-named column, where pandas would produce
duplicate column labels and `reindex` would fail). -/

inductive CVal where
  | S : String → CVal
  | Q : ℚ → CVal
deriving DecidableEq, Repr

abbrev Row := String → Option String

abbrev CRow := String → Option CVal

structure Df where
  cols : List String
  rows : List Row

structure CDf where
  cols : List String
  rows : List CRow

/-- `parse_amount_and_currency` applied to a cell (`None`/NaN gives
`(None, None)` in the source). -/
def parseCell (x : Option String) : Option ℚ × Option String :=
  match x with
  | none => (none, none)
  | some s => parse_amount_and_currency s

/-- `normalize_date` applied to a cell. -/
def normCell (x : Option String) : Option String :=
  match x with
  | none => none
  | some s => normalize_date s

/-- `split_address_block` applied to a cell. -/
def addrCell (x : Option String) : AddressRecord :=
  match x with
  | none => emptyAddress
  | some s => split_address_block s

/-- Column assignment `df[n] = v` on one row. -/
def updF (g : CRow) (n : String) (v : Option CVal) : CRow :=
  fun c => if c = n then v else g c

/-- The `amount_map` of the source, in declaration order. -/
def amountPairs : List (String × String) :=
  [("TOTAL", "TOTAL_AMOUNT"), ("SUB_TOTAL", "SUB_TOTAL_AMOUNT"),
   ("TAX", "TAX_AMOUNT"), ("DISCOUNT", "DISCOUNT_AMOUNT")]

def monetarySrcs : List String := ["TOTAL", "SUB_TOTAL", "TAX", "DISCOUNT"]

/-- One amount step per row: the target column gets the parsed amount if the
source column is present, `None` otherwise. -/
def amountStep (cols : List String) (r : Row) (g : CRow) (p : String × String) : CRow :=
  if p.1 ∈ cols then updF g p.2 (((parseCell (r p.1)).1).map CVal.Q)
  else updF g p.2 none

/-- The per-row currency guesses collected into `currency_series`, in
`amount_map` order, one entry per present monetary column. -/
def guessList (cols : List String) (r : Row) : List (Option String) :=
  amountPairs.foldl
    (fun acc p => if p.1 ∈ cols then acc ++ [(parseCell (r p.1)).2] else acc) []

def addrFieldNames : List String :=
  ["name", "addr_line1", "addr_line2", "city_state_postal_country",
   "tel", "email", "site", "raw"]

def addrNames (pre : String) : List String := addrFieldNames.map (pre ++ ·)

/-- The eight address columns produced by `pd.json_normalize(...).add_prefix`,
assigned on one row. -/
def addrUpdates (g : CRow) (pre : String) (a : AddressRecord) : CRow :=
  updF (updF (updF (updF (updF (updF (updF (updF g
    (pre ++ "name") (a.name.map CVal.S))
    (pre ++ "addr_line1") (a.addr_line1.map CVal.S))
    (pre ++ "addr_line2") (a.addr_line2.map CVal.S))
    (pre ++ "city_state_postal_country") (a.city_state_postal_country.map CVal.S))
    (pre ++ "tel") (a.tel.map CVal.S))
    (pre ++ "email") (a.email.map CVal.S))
    (pre ++ "site") (a.site.map CVal.S))
    (pre ++ "raw") (a.raw.map CVal.S)

/-- All derivation steps of `clean_template_df` on one row.  `cols` is the
column set after the noise-column drop; the membership tests the source
performs against the mutating frame coincide with tests against `cols`
because the tested names (`TOTAL`, …, `SELLER_ADDRESS`) are never added or
removed after the drop. -/
def cleanRow (cols : List String) (r : Row) : CRow :=
  let g0 : CRow := fun c => (r c).map CVal.S
  let g1 := amountPairs.foldl (fun g p => amountStep cols r g p) g0
  let g2 := updF g1 "CURRENCY" (((guessList cols r).findSome? id).map CVal.S)
  let g3 :=
    if "DATE" ∈ cols then updF g2 "DATE_NORM" ((normCell (r "DATE")).map CVal.S)
    else g2
  let g4 :=
    if "DUE_DATE" ∈ cols then
      updF g3 "DUE_DATE_NORM" ((normCell (r "DUE_DATE")).map CVal.S)
    else g3
  let g5 :=
    if "BUYER" ∈ cols then addrUpdates g4 "BUYER_" (addrCell (r "BUYER")) else g4
  let g6 :=
    if "SELLER_ADDRESS" ∈ cols then
      addrUpdates g5 "SELLER_" (addrCell (r "SELLER_ADDRESS"))
    else g5
  g6

/-- `df[n] = ...` on the column list: a new name is appended. -/
def addColName (cs : List String) (n : String) : List String :=
  if n ∈ cs then cs else cs ++ [n]

/-- Insertion into a sorted list, for the final lexicographic reindex. -/
def insSorted (s : String) : List String → List String
  | [] => [s]
  | t :: ts => if s ≤ t then s :: t :: ts else t :: insSorted s ts

def sortCols (l : List String) : List String := l.foldr insSorted []

/-- The output column set, starting from the post-drop columns `c1`. -/
def cleanCols (c1 : List String) : List String :=
  let c2 := amountPairs.foldl (fun cs p => addColName cs p.2) c1
  let c3 := addColName c2 "CURRENCY"
  let c4 := if "DATE" ∈ c1 then addColName c3 "DATE_NORM" else c3
  let c5 := if "DUE_DATE" ∈ c1 then addColName c4 "DUE_DATE_NORM" else c4
  let c6 := if "BUYER" ∈ c1 then (addrNames "BUYER_").foldl addColName c5 else c5
  let c7 :=
    if "SELLER_ADDRESS" ∈ c1 then (addrNames "SELLER_").foldl addColName c6 else c6
  sortCols c7

/-- The noise-column drop on a column list. -/
def dropNoise (cols : List String) : List String :=
  cols.filter (fun c => !(c == "OTHER" || c == "LOGO"))

/-- `clean_template_df` from `data_cleaning.py`. -/
def clean_template_df (df : Df) : CDf :=
  { cols := cleanCols (dropNoise df.cols), rows := df.rows.map (cleanRow (dropNoise df.cols)) }

end DataCleaning

namespace JsonToCsv

/-- A JSON value as `extract_text_fields` distinguishes them: an object
(Python `dict`), a string, or any other scalar carried together with its
`str()` rendering. -/
inductive Json where
  | obj : List (String × Json) → Json
  | str : String → Json
  | other : String → Json

/-- `extract_text_fields` from `json_to_csv.py`: an object value keeps only
its `"text"` member (`value.get("text", "")`, so the empty string when the
member is missing); any other value is stringified. -/
def extract_text_fields (rec : List (String × Json)) : List (String × Json) :=
  rec.map fun kv =>
    match kv.2 with
    | Json.obj fs => (kv.1, (fs.lookup "text").getD (Json.str ""))
    | Json.str s => (kv.1, Json.str s)
    | Json.other r => (kv.1, Json.str r)

end JsonToCsv

namespace DataCleaning

/-! ### Spec-side definitions

These follow the specification's wording, for comparison with the
source-derived definitions above. -/

/-- Contact-line classification as the spec words it for claim C2: a line
starting with `tel`, starting with `email`, or starting with `site` /
containing `http` / starting with `www`, case-insensitively. -/
def specContactLine (l : List Char) : Bool :=
  startsWithL telPat (lowList l) || startsWithL emailPat (lowList l) ||
  (startsWithL sitePat (lowList l) || containsL httpPat (lowList l) ||
   startsWithL wwwPat (lowList l))

/-- The address-block candidate list as the spec describes it: all lines not
classified as contact lines, in original order. -/
def specCandidates (text : String) : List (List Char) :=
  (linesOf text).filter (fun l => !specContactLine l)

/-- The decimal value denoted by an optional sign, integer digits and
fraction digits. -/
def decVal (sgn : Bool) (ds fs : List Char) : ℚ :=
  applySign sgn (intOfDigits ds + fracOfDigits fs)

/-- The rendering of an amount as a plain signed decimal without thousands
separators: sign, integer digits, dot, fraction digits — the shape in which
`str(float)` renders finite floats. -/
def renderAmount (sgn : Bool) (ds fs : List Char) : List Char :=
  (if sgn then ['-'] else []) ++ ds ++ '.' :: fs

/-- The rendering of the currency component: nothing, or a space followed
by the code. -/
def renderTail (c : Option String) : List Char :=
  match c with
  | none => []
  | some k => ' ' :: k.data

/-- Modelled from the spec: re-stringification of a parsed
`(amount, currency)` pair for claim C4 (the repository itself never
stringifies a parsed pair).  The amount is rendered without thousands
separators, followed by the currency code, space-separated, when one is
present. -/
def specStringifyPair (sgn : Bool) (ds fs : List Char) (c : Option String) : String :=
  String.mk (renderAmount sgn ds fs ++ renderTail c)

/-- The currency whitelist as `String`s. -/
def codeStrings : List String :=
  ["USD", "EUR", "INR", "GBP", "AED", "SGD", "AUD", "CAD", "JPY", "CNY"]

/-- The ten digit characters. -/
def digitChars : List Char := ['0', '1', '2', '3', '4', '5', '6', '7', '8', '9']

/-- Every character a stringified amount can contain, plus the separating
space. -/
def renderChars : List Char := digitChars ++ ['-', '.', ' ']

/-! ### Concrete fixtures used by witnesses and counterexamples -/

/-- Every column name `clean_template_df` assigns or drops: the noise
columns, the four amount targets, `CURRENCY`, the two date targets and the
sixteen address columns. -/
def protectedNames : List String :=
  ["OTHER", "LOGO", "TOTAL_AMOUNT", "SUB_TOTAL_AMOUNT", "TAX_AMOUNT",
   "DISCOUNT_AMOUNT", "CURRENCY", "DATE_NORM", "DUE_DATE_NORM"] ++
  addrNames "BUYER_" ++ addrNames "SELLER_"

def rPlain : Row := fun c => if c = "X" then some "a" else none

/-- A one-row frame whose only column is unrelated to the pipeline. -/
def dfPlain : Df := ⟨["X"], [rPlain]⟩

def rTax : Row := fun c => if c = "TAX" then some "5 EUR" else none

/-- A one-row frame with a single monetary column. -/
def dfTax : Df := ⟨["TAX"], [rTax]⟩

def rCur : Row := fun c => if c = "CURRENCY" then some "EUR" else none

/-- A one-row frame whose input column collides with the derived
`CURRENCY` column. -/
def dfCur : Df := ⟨["CURRENCY"], [rCur]⟩

def rFoo : Row := fun c => if c = "FOO" then some "bar" else none

/-- A one-row frame with an untouched pass-through column. -/
def dfFoo : Df := ⟨["FOO"], [rFoo]⟩

/-- A record whose `A` value is an object lacking a `text` member and whose
`B` value is a scalar. -/
def recW : List (String × JsonToCsv.Json) :=
  [("A", JsonToCsv.Json.obj [("bbox", JsonToCsv.Json.other "[0, 0, 1, 1]")]),
   ("B", JsonToCsv.Json.other "5")]

end DataCleaning

open DataCleaning JsonToCsv

/-! ## Claim theorems -/

/-- C1 (code bug): the spec's token language matches `1234.56` whole, but in
the source regex `[-+]?\d{1,3}(?:,\d{3})*(?:\.\d+)?|[-+]?\d+(?:\.\d+)?` the
first alternative fires at every position where the second could (making
the second alternative dead code, evidently a slip), so `findall` splits
`"1234.56"` into `"123"` and `"4.56"` and the parser returns 4.56, not
1234.56. -/
theorem claim_c1_code_divergence :
    (findNums ("1234.56".data)).map String.mk = ["123", "4.56"] ∧
    parse_amount_and_currency "1234.56" = (some (114/25 : ℚ), none) ∧
    (114/25 : ℚ) ≠ (1234.56 : ℚ) := by
  refine ⟨by decide, by decide, by norm_num⟩

/-- C6: `normalize_date` drops everything up to and including the first
colon, tries the six formats in the fixed source order returning the first
successful parse rendered as `YYYY-MM-DD`, returns `none` when all formats
fail, and in particular maps `"Date: 01/02/2021"` to `"2021-02-01"`
(day-first preference) and round-trips `"2021-05-12"`. -/
theorem claim_c6_date_normalizer :
    (∀ s : String, cleanSpacesL s.data ≠ [] →
      normalize_date s =
        dateFmts.findSome? (fun p => (p (afterLabel (cleanSpacesL s.data))).bind mkISO)) ∧
    (∀ s : String,
      (∀ p ∈ dateFmts, (p (afterLabel (cleanSpacesL s.data))).bind mkISO = none) →
      normalize_date s = none) ∧
    normalize_date "Date: 01/02/2021" = some "2021-02-01" ∧
    normalize_date "2021-05-12" = some "2021-05-12" := by
  refine ⟨fun s h => ?_, fun s h => ?_, by decide, by decide⟩
  · simp only [normalize_date, if_neg h]
  · simp only [normalize_date]
    split
    · rfl
    · exact List.findSome?_eq_none_iff.mpr h

/-- Witness for C6 at `"15-Jan-2021"`. -/
theorem claim_c6_witness :
    cleanSpacesL ("15-Jan-2021" : String).data ≠ [] ∧
    normalize_date "15-Jan-2021" =
      dateFmts.findSome?
        (fun p => (p (afterLabel (cleanSpacesL ("15-Jan-2021" : String).data))).bind mkISO) :=
  ⟨by decide, claim_c6_date_normalizer.1 "15-Jan-2021" (by decide)⟩

/-- C10: `extract_text_fields` maps a key whose value is an object lacking a
`text` member to the empty string (never a stringification of the object),
and stringifies exactly the non-object values. -/
theorem claim_c10_flattener (rec : List (String × Json)) :
    (∀ k fs, (k, Json.obj fs) ∈ rec → fs.lookup "text" = none →
      (k, Json.str "") ∈ extract_text_fields rec) ∧
    (∀ k s, (k, Json.str s) ∈ rec → (k, Json.str s) ∈ extract_text_fields rec) ∧
    (∀ k r, (k, Json.other r) ∈ rec → (k, Json.str r) ∈ extract_text_fields rec) := by
  refine ⟨fun k fs h hno => ?_, fun k s h => ?_, fun k r h => ?_⟩
  · simp only [extract_text_fields, List.mem_map]
    exact ⟨(k, Json.obj fs), h, by simp [hno]⟩
  · simp only [extract_text_fields, List.mem_map]
    exact ⟨(k, Json.str s), h, rfl⟩
  · simp only [extract_text_fields, List.mem_map]
    exact ⟨(k, Json.other r), h, rfl⟩

/-- The classification loop only ever assigns the contact fields; the four
address fields are untouched. -/
theorem classify_keeps_addr (rec : AddressRecord) (line : List Char) :
    (classifyLine rec line).name = rec.name ∧
    (classifyLine rec line).addr_line1 = rec.addr_line1 ∧
    (classifyLine rec line).addr_line2 = rec.addr_line2 ∧
    (classifyLine rec line).city_state_postal_country = rec.city_state_postal_country := by
  simp only [classifyLine]
  repeat' split
  all_goals exact ⟨rfl, rfl, rfl, rfl⟩

theorem foldl_classify_keeps_addr (lines : List (List Char)) (rec : AddressRecord) :
    (lines.foldl classifyLine rec).name = rec.name ∧
    (lines.foldl classifyLine rec).addr_line1 = rec.addr_line1 ∧
    (lines.foldl classifyLine rec).addr_line2 = rec.addr_line2 ∧
    (lines.foldl classifyLine rec).city_state_postal_country
      = rec.city_state_postal_country := by
  induction lines generalizing rec with
  | nil => exact ⟨rfl, rfl, rfl, rfl⟩
  | cons l ls ih =>
    have h := classify_keeps_addr rec l
    have h2 := ih (classifyLine rec l)
    exact ⟨h2.1.trans h.1, h2.2.1.trans h.2.1, h2.2.2.1.trans h.2.2.1,
      h2.2.2.2.trans h.2.2.2⟩

/-- C2 counterexample: on `"Acme Corp\nwww.example.com"` the second line is
classified as a `site` contact line, yet it is also used as `addr_line1`;
under the claim's candidate list (which excludes `http`/`www` lines)
`addr_line1` would have to be `none`. -/
theorem claim_c2_counterexample :
    (split_address_block "Acme Corp\nwww.example.com").site
        = some "www.example.com" ∧
    (split_address_block "Acme Corp\nwww.example.com").addr_line1
        = some "www.example.com" ∧
    ((specCandidates "Acme Corp\nwww.example.com").get? 1).map String.mk = none := by
  refine ⟨by decide, by decide, by decide⟩

/-- C2 amended: the address fields are assigned, in original order, from the
lines whose lowercasing does not start with `tel`, `email` or `site` — the
source's candidate filter.  Lines merely containing `http` or starting with
`www` are classified as `site` contact lines but still remain address-block
candidates. -/
theorem claim_c2_amended (text : String) :
    (split_address_block text).name
        = ((addrCandidates (linesOf text)).get? 0).map String.mk ∧
    (split_address_block text).addr_line1
        = ((addrCandidates (linesOf text)).get? 1).map String.mk ∧
    (split_address_block text).addr_line2
        = ((addrCandidates (linesOf text)).get? 2).map String.mk ∧
    (split_address_block text).city_state_postal_country
        = ((addrCandidates (linesOf text)).get? 3).map String.mk := by
  unfold split_address_block
  by_cases hl : linesOf text = []
  · simp [hl, addrCandidates, emptyAddress]
  · simp only [if_neg hl]
    have hfold := foldl_classify_keeps_addr (linesOf text)
      { emptyAddress with
        raw := some (String.mk (List.intercalate [' ', '|', ' '] (linesOf text))) }
    rcases hc : addrCandidates (linesOf text) with _ | ⟨a0, _ | ⟨a1, _ | ⟨a2, _ | ⟨a3, rest⟩⟩⟩⟩ <;>
      simp_all [emptyAddress]

/-! Helper lemmas: scanning finds nothing in digit-free text. -/

theorem matchNum_eq_none (l : List Char) (h : ∀ ch ∈ l, ch.isDigit = false) :
    matchNum l = none := by
  match l with
  | [] => rfl
  | c :: cs =>
    have hc := h c (List.mem_cons_self c cs)
    simp only [matchNum]
    by_cases hs : (c == '-' || c == '+') = true
    · simp only [hs, if_true]
      match cs with
      | [] => rfl
      | d :: ds =>
        have hd := h d (List.mem_cons_of_mem c (List.mem_cons_self d ds))
        simp [hd]
    · simp only [Bool.not_eq_true] at hs
      simp [hs, hc]

theorem scanAux_of_no_digit (n : Nat) (l : List Char)
    (h : ∀ ch ∈ l, ch.isDigit = false) : scanAux n l = [] := by
  induction n generalizing l with
  | zero => rfl
  | succ n ih =>
    match l with
    | [] => rfl
    | c :: cs =>
      simp only [scanAux, matchNum_eq_none (c :: cs) h]
      exact ih cs (fun ch hm => h ch (List.mem_cons_of_mem c hm))

theorem collapseAux_chars (b : Bool) (l : List Char) (ch : Char)
    (h : ch ∈ collapseAux b l) : ch ∈ l ∨ ch = ' ' := by
  induction l generalizing b with
  | nil => simp [collapseAux] at h
  | cons c cs ih =>
    simp only [collapseAux] at h
    by_cases hs : isSpaceC c = true
    · simp only [hs, if_true] at h
      by_cases hb : b = true
      · simp only [hb, if_true] at h
        rcases ih true h with h2 | h2
        · exact Or.inl (List.mem_cons_of_mem c h2)
        · exact Or.inr h2
      · simp only [Bool.not_eq_true] at hb
        simp only [hb, Bool.false_eq_true, if_false, List.mem_cons] at h
        rcases h with h2 | h2
        · exact Or.inr h2
        · rcases ih true h2 with h3 | h3
          · exact Or.inl (List.mem_cons_of_mem c h3)
          · exact Or.inr h3
    · simp only [Bool.not_eq_true] at hs
      simp only [hs, Bool.false_eq_true, if_false, List.mem_cons] at h
      rcases h with h2 | h2
      · exact Or.inl (h2 ▸ List.mem_cons_self c cs)
      · rcases ih false h2 with h3 | h3
        · exact Or.inl (List.mem_cons_of_mem c h3)
        · exact Or.inr h3

theorem cleanSpaces_chars (l : List Char) (ch : Char)
    (h : ch ∈ cleanSpacesL l) : ch ∈ l ∨ ch = ' ' := by
  unfold cleanSpacesL stripBoth at h
  rw [List.mem_reverse] at h
  have h2 : ch ∈ (List.dropWhile isSpaceC (collapseAux false l)).reverse :=
    (List.dropWhile_sublist isSpaceC).subset h
  rw [List.mem_reverse] at h2
  have h3 : ch ∈ collapseAux false l := (List.dropWhile_sublist isSpaceC).subset h2
  exact collapseAux_chars false l ch h3

/-- C5 counterexample: `"Discount: 0"` satisfies the discount condition and
parses the numeric token `0`, but the returned amount `-abs(0) = 0` is not
negative, contradicting the claim that the amount is negative. -/
theorem claim_c5_counterexample :
    parse_amount_and_currency "Discount: 0" = (some 0, none) ∧ ¬((0 : ℚ) < 0) :=
  ⟨by decide, by norm_num⟩

/-- C5 amended: when the normalized text satisfies the discount condition
(contains `discount` case-insensitively, a literal `(-)`, or a parenthesized
minus with optional internal whitespace) and a numeric token parses to `q`,
the returned amount is `-abs q` — nonpositive always, and strictly negative
whenever `q` is nonzero — alongside the detected currency. -/
theorem claim_c5_discount_sign (text : String) (q : ℚ) (tok : List Char)
    (hd : discountFlag (cleanSpacesL text.data) = true)
    (hlast : (findNums (cleanSpacesL text.data)).getLast? = some tok)
    (hq : parseFloat (tok.filter (fun c => !(c == ','))) = some q) :
    parse_amount_and_currency text
      = (some (-|q|), detectCurrency (cleanSpacesL text.data)) ∧
    (q ≠ 0 → -|q| < 0) := by
  constructor
  · have ht : cleanSpacesL text.data ≠ [] := by
      intro h0
      rw [h0] at hlast
      simp [findNums, scanAux] at hlast
    simp only [parse_amount_and_currency, if_neg ht, hlast, hq, hd, if_true]
  · intro h
    have h2 : 0 < |q| := abs_pos.mpr h
    linarith

/-- Witness for C5 at `"Discount: 50 USD"`. -/
theorem claim_c5_witness :
    discountFlag (cleanSpacesL ("Discount: 50 USD" : String).data) = true ∧
    (findNums (cleanSpacesL ("Discount: 50 USD" : String).data)).getLast?
      = some ['5', '0'] ∧
    parseFloat (['5', '0'].filter (fun c => !(c == ','))) = some 50 ∧
    parse_amount_and_currency "Discount: 50 USD"
      = (some (-|(50 : ℚ)|),
         detectCurrency (cleanSpacesL ("Discount: 50 USD" : String).data)) :=
  ⟨by decide, by decide, by decide,
   (claim_c5_discount_sign "Discount: 50 USD" 50 ['5', '0'] (by decide) (by decide)
     (by decide)).1⟩

/-- C8: a text without digit characters yields an absent amount, while the
currency detected from a whole-word ISO code or symbol is still returned. -/
theorem claim_c8_no_digits (text : String)
    (h : ∀ ch ∈ text.data, ch.isDigit = false) :
    parse_amount_and_currency text = (none, detectCurrency (cleanSpacesL text.data)) := by
  have hclean : ∀ ch ∈ cleanSpacesL text.data, ch.isDigit = false := by
    intro ch hm
    rcases cleanSpaces_chars text.data ch hm with h2 | h2
    · exact h ch h2
    · rw [h2]; rfl
  have hnums : findNums (cleanSpacesL text.data) = [] :=
    scanAux_of_no_digit _ _ hclean
  by_cases ht : cleanSpacesL text.data = []
  · simp only [parse_amount_and_currency, ht, if_true]
    rfl
  · simp only [parse_amount_and_currency, if_neg ht, hnums, List.getLast?_nil]

/-- Witness for C8 at `"total EUR"`. -/
theorem claim_c8_witness :
    (∀ ch ∈ ("total EUR" : String).data, ch.isDigit = false) ∧
    parse_amount_and_currency "total EUR" = (none, some "EUR") := by
  refine ⟨by decide, ?_⟩
  rw [claim_c8_no_digits "total EUR" (by decide)]
  decide

/-! Helper lemmas about the pipeline's column bookkeeping. -/

theorem mem_insSorted (x s : String) (l : List String) :
    x ∈ insSorted s l ↔ x = s ∨ x ∈ l := by
  induction l with
  | nil => simp [insSorted]
  | cons t ts ih =>
    simp only [insSorted]
    split
    · simp
    · simp only [List.mem_cons, ih]
      tauto

theorem mem_sortCols (x : String) (l : List String) : x ∈ sortCols l ↔ x ∈ l := by
  induction l with
  | nil => simp [sortCols]
  | cons t ts ih =>
    simp only [sortCols, List.foldr_cons] at *
    rw [mem_insSorted, ih]
    simp

theorem mem_addColName (x n : String) (cs : List String) :
    x ∈ addColName cs n ↔ x ∈ cs ∨ x = n := by
  unfold addColName
  split
  · constructor
    · exact Or.inl
    · rintro (h | rfl)
      · exact h
      · assumption
  · simp

theorem mem_addMany (x : String) (ns cs : List String) :
    x ∈ ns.foldl addColName cs ↔ x ∈ cs ∨ x ∈ ns := by
  induction ns generalizing cs with
  | nil => simp
  | cons n ns ih =>
    simp only [List.foldl_cons, ih, mem_addColName, List.mem_cons]
    tauto

theorem mem_dropNoise (x : String) (cols : List String) :
    x ∈ dropNoise cols ↔ x ∈ cols ∧ x ≠ "OTHER" ∧ x ≠ "LOGO" := by
  simp [dropNoise, List.mem_filter]

/-- Master description of the output column set. -/
theorem mem_cleanCols (x : String) (c1 : List String) :
    x ∈ cleanCols c1 ↔
      x ∈ c1 ∨
      x ∈ ["TOTAL_AMOUNT", "SUB_TOTAL_AMOUNT", "TAX_AMOUNT", "DISCOUNT_AMOUNT"] ∨
      x = "CURRENCY" ∨
      ("DATE" ∈ c1 ∧ x = "DATE_NORM") ∨
      ("DUE_DATE" ∈ c1 ∧ x = "DUE_DATE_NORM") ∨
      ("BUYER" ∈ c1 ∧ x ∈ addrNames "BUYER_") ∨
      ("SELLER_ADDRESS" ∈ c1 ∧ x ∈ addrNames "SELLER_") := by
  have hMany : ∀ (P : Prop) (inst : Decidable P) (ns cs : List String),
      x ∈ (if P then ns.foldl addColName cs else cs) ↔ x ∈ cs ∨ (P ∧ x ∈ ns) := by
    intro P inst ns cs
    split
    · rw [mem_addMany]; tauto
    · tauto
  have hOne : ∀ (P : Prop) (inst : Decidable P) (cs : List String) (n : String),
      x ∈ (if P then addColName cs n else cs) ↔ x ∈ cs ∨ (P ∧ x = n) := by
    intro P inst cs n
    split
    · rw [mem_addColName]; tauto
    · tauto
  unfold cleanCols
  rw [mem_sortCols, hMany, hMany, hOne, hOne, mem_addColName]
  simp only [amountPairs, List.foldl_cons, List.foldl_nil]
  rw [mem_addColName, mem_addColName, mem_addColName, mem_addColName]
  simp only [List.mem_cons, List.not_mem_nil, or_false]
  tauto

/-! Helper lemmas about the pipeline's per-row assignments. -/

theorem updF_ne (g : CRow) (n : String) (v : Option CVal) (c : String) (h : c ≠ n) :
    updF g n v c = g c := by
  simp [updF, h]

theorem updF_self (g : CRow) (n : String) (v : Option CVal) : updF g n v n = v := by
  simp [updF]

theorem amountStep_ne (cols : List String) (r : Row) (g : CRow) (p : String × String)
    (c : String) (h : c ≠ p.2) : amountStep cols r g p c = g c := by
  unfold amountStep
  split <;> exact updF_ne _ _ _ _ h

theorem amountStep_self (cols : List String) (r : Row) (g : CRow) (p : String × String) :
    amountStep cols r g p p.2
      = if p.1 ∈ cols then ((parseCell (r p.1)).1).map CVal.Q else none := by
  unfold amountStep
  split <;> simp [updF_self]

theorem addrUpdates_ne (g : CRow) (pre : String) (a : AddressRecord) (c : String)
    (h : c ∉ addrNames pre) : addrUpdates g pre a c = g c := by
  simp only [addrNames, addrFieldNames, List.map_cons, List.map_nil, List.mem_cons,
    List.not_mem_nil, or_false, not_or] at h
  obtain ⟨h1, h2, h3, h4, h5, h6, h7, h8⟩ := h
  unfold addrUpdates
  rw [updF_ne _ _ _ _ h8, updF_ne _ _ _ _ h7, updF_ne _ _ _ _ h6, updF_ne _ _ _ _ h5,
    updF_ne _ _ _ _ h4, updF_ne _ _ _ _ h3, updF_ne _ _ _ _ h2, updF_ne _ _ _ _ h1]

theorem step_if_ne (P : Prop) [Decidable P] (g : CRow) (n : String) (v : Option CVal)
    (c : String) (h : c ≠ n) : (if P then updF g n v else g) c = g c := by
  split
  · exact updF_ne _ _ _ _ h
  · rfl

theorem step_addr_ne (P : Prop) [Decidable P] (g : CRow) (pre : String)
    (a : AddressRecord) (c : String) (h : c ∉ addrNames pre) :
    (if P then addrUpdates g pre a else g) c = g c := by
  split
  · exact addrUpdates_ne _ _ _ _ h
  · rfl

/-- Evaluating a cleaned row at the `CURRENCY` column. -/
theorem cleanRow_currency (cols : List String) (r : Row) :
    cleanRow cols r "CURRENCY" = ((guessList cols r).findSome? id).map CVal.S := by
  simp only [cleanRow]
  rw [step_addr_ne _ _ _ _ _ (by decide), step_addr_ne _ _ _ _ _ (by decide),
    step_if_ne _ _ _ _ _ (by decide), step_if_ne _ _ _ _ _ (by decide), updF_self]

/-- Evaluating a cleaned row at an amount target column. -/
theorem cleanRow_amount (cols : List String) (r : Row) (src tgt : String)
    (hp : (src, tgt) ∈ amountPairs) :
    cleanRow cols r tgt
      = if src ∈ cols then ((parseCell (r src)).1).map CVal.Q else none := by
  simp only [amountPairs, List.mem_cons, List.not_mem_nil, or_false] at hp
  have hne : tgt ≠ "CURRENCY" ∧ tgt ≠ "DATE_NORM" ∧ tgt ≠ "DUE_DATE_NORM" ∧
      tgt ∉ addrNames "BUYER_" ∧ tgt ∉ addrNames "SELLER_" := by
    rcases hp with h | h | h | h <;> rw [Prod.mk.injEq] at h <;> rw [h.2] <;> decide
  have base : cleanRow cols r tgt
      = (amountPairs.foldl (fun g p => amountStep cols r g p)
          (fun c => (r c).map CVal.S)) tgt := by
    simp only [cleanRow]
    rw [step_addr_ne _ _ _ _ _ hne.2.2.2.2, step_addr_ne _ _ _ _ _ hne.2.2.2.1,
      step_if_ne _ _ _ _ _ hne.2.2.1, step_if_ne _ _ _ _ _ hne.2.1,
      updF_ne _ _ _ _ hne.1]
  rw [base]
  simp only [amountPairs, List.foldl_cons, List.foldl_nil]
  rcases hp with h | h | h | h <;> rw [Prod.mk.injEq] at h <;>
    obtain ⟨rfl, rfl⟩ := h
  · rw [amountStep_ne _ _ _ _ _ (by decide), amountStep_ne _ _ _ _ _ (by decide),
      amountStep_ne _ _ _ _ _ (by decide)]
    exact amountStep_self cols r _ ("TOTAL", "TOTAL_AMOUNT")
  · rw [amountStep_ne _ _ _ _ _ (by decide), amountStep_ne _ _ _ _ _ (by decide)]
    exact amountStep_self cols r _ ("SUB_TOTAL", "SUB_TOTAL_AMOUNT")
  · rw [amountStep_ne _ _ _ _ _ (by decide)]
    exact amountStep_self cols r _ ("TAX", "TAX_AMOUNT")
  · exact amountStep_self cols r _ ("DISCOUNT", "DISCOUNT_AMOUNT")

/-- Evaluating a cleaned row at an untouched column. -/
theorem cleanRow_passthrough (cols : List String) (r : Row) (c : String)
    (h : c ∉ protectedNames) : cleanRow cols r c = (r c).map CVal.S := by
  have hB : c ∉ addrNames "BUYER_" := fun hm =>
    h (List.mem_append.mpr (Or.inl (List.mem_append.mpr (Or.inr hm))))
  have hS : c ∉ addrNames "SELLER_" := fun hm => h (List.mem_append.mpr (Or.inr hm))
  have hone : ∀ n : String,
      n ∈ ["OTHER", "LOGO", "TOTAL_AMOUNT", "SUB_TOTAL_AMOUNT", "TAX_AMOUNT",
        "DISCOUNT_AMOUNT", "CURRENCY", "DATE_NORM", "DUE_DATE_NORM"] → c ≠ n := by
    intro n hn he
    exact h (List.mem_append.mpr (Or.inl (List.mem_append.mpr (Or.inl (he ▸ hn)))))
  simp only [cleanRow, amountPairs, List.foldl_cons, List.foldl_nil]
  rw [step_addr_ne _ _ _ _ _ hS, step_addr_ne _ _ _ _ _ hB,
    step_if_ne _ _ _ _ _ (hone _ (by decide)), step_if_ne _ _ _ _ _ (hone _ (by decide)),
    updF_ne _ _ _ _ (hone _ (by decide)),
    amountStep_ne _ _ _ _ _ (hone _ (by decide)),
    amountStep_ne _ _ _ _ _ (hone _ (by decide)),
    amountStep_ne _ _ _ _ _ (hone _ (by decide)),
    amountStep_ne _ _ _ _ _ (hone _ (by decide))]

/-- The collected currency guesses are the guesses of the present monetary
columns, in declaration order. -/
theorem guessList_eq_map (cols : List String) (r : Row) :
    guessList cols r
      = (monetarySrcs.filter (fun s => decide (s ∈ cols))).map
          (fun s => (parseCell (r s)).2) := by
  by_cases h1 : "TOTAL" ∈ cols <;> by_cases h2 : "SUB_TOTAL" ∈ cols <;>
    by_cases h3 : "TAX" ∈ cols <;> by_cases h4 : "DISCOUNT" ∈ cols <;>
    simp [guessList, amountPairs, monetarySrcs, h1, h2, h3, h4]

/-- Dropping the noise columns does not change which monetary sources are
present. -/
theorem monetary_filter_dropNoise (cols : List String) :
    monetarySrcs.filter (fun s => decide (s ∈ dropNoise cols))
      = monetarySrcs.filter (fun s => decide (s ∈ cols)) := by
  have h : ∀ s ∈ monetarySrcs, (s ∈ dropNoise cols ↔ s ∈ cols) := by
    intro s hs
    simp only [monetarySrcs, List.mem_cons, List.not_mem_nil, or_false] at hs
    rcases hs with rfl | rfl | rfl | rfl <;>
      simp [mem_dropNoise]
  exact List.filter_congr (fun s hs => decide_eq_decide.mpr (h s hs))

/-- C3 counterexample: with `DATE` absent from the input, the cleaned output
contains no `DATE_NORM` column at all, whereas the claim asserts it would be
present and filled with the absent value. -/
theorem claim_c3_counterexample :
    "DATE" ∉ dfPlain.cols ∧ "DATE_NORM" ∉ (clean_template_df dfPlain).cols := by
  refine ⟨by decide, fun h => ?_⟩
  have h2 := (mem_cleanCols "DATE_NORM" (dropNoise dfPlain.cols)).mp h
  simp [dfPlain, mem_dropNoise, addrNames, addrFieldNames, dropNoise] at h2

/-- C3 amended: a missing monetary source column still yields its amount
target column, filled with the absent value in every row, and `CURRENCY` is
always produced; but the date targets and the address columns are produced
only when their source column is present (when it is absent they are absent
from the output, unless the input itself carried a column of that name).
No row is ever dropped. -/
theorem claim_c3_missing_columns (df : Df) :
    (∀ src tgt, (src, tgt) ∈ amountPairs → src ∉ df.cols →
      tgt ∈ (clean_template_df df).cols ∧
      ∀ r2 ∈ (clean_template_df df).rows, r2 tgt = none) ∧
    "CURRENCY" ∈ (clean_template_df df).cols ∧
    ("DATE" ∉ df.cols → "DATE_NORM" ∉ df.cols →
      "DATE_NORM" ∉ (clean_template_df df).cols) ∧
    ("DUE_DATE" ∉ df.cols → "DUE_DATE_NORM" ∉ df.cols →
      "DUE_DATE_NORM" ∉ (clean_template_df df).cols) ∧
    ("BUYER" ∉ df.cols → ∀ n ∈ addrNames "BUYER_", n ∉ df.cols →
      n ∉ (clean_template_df df).cols) ∧
    ("SELLER_ADDRESS" ∉ df.cols → ∀ n ∈ addrNames "SELLER_", n ∉ df.cols →
      n ∉ (clean_template_df df).cols) ∧
    (clean_template_df df).rows.length = df.rows.length := by
  have hdrop : ∀ x : String, x ∉ df.cols → x ∉ dropNoise df.cols := fun x hx hm =>
    hx ((mem_dropNoise x df.cols).mp hm).1
  refine ⟨fun src tgt hp hsrc => ⟨?_, ?_⟩, ?_, fun h1 h2 h3 => ?_, fun h1 h2 h3 => ?_,
    fun h1 n hn h2 h3 => ?_, fun h1 n hn h2 h3 => ?_, ?_⟩
  · refine (mem_cleanCols tgt (dropNoise df.cols)).mpr (Or.inr (Or.inl ?_))
    simp only [amountPairs, List.mem_cons, List.not_mem_nil, or_false,
      Prod.mk.injEq] at hp
    rcases hp with h | h | h | h <;> rw [h.2] <;> decide
  · intro r2 hr2
    simp only [clean_template_df, List.mem_map] at hr2
    obtain ⟨r, _, rfl⟩ := hr2
    rw [cleanRow_amount (dropNoise df.cols) r src tgt hp,
      if_neg (hdrop src hsrc)]
  · exact (mem_cleanCols _ _).mpr (Or.inr (Or.inr (Or.inl rfl)))
  · have h4 := (mem_cleanCols _ _).mp h3
    simp [hdrop _ h1, hdrop _ h2, addrNames, addrFieldNames] at h4
  · have h4 := (mem_cleanCols _ _).mp h3
    simp [hdrop _ h1, hdrop _ h2, addrNames, addrFieldNames] at h4
  · have h4 := (mem_cleanCols _ _).mp h3
    simp only [addrNames, addrFieldNames, List.map_cons, List.map_nil,
      List.mem_cons, List.not_mem_nil, or_false] at hn
    rcases hn with rfl | rfl | rfl | rfl | rfl | rfl | rfl | rfl <;>
      simp [hdrop _ h1, addrNames, addrFieldNames] at h4 <;>
      exact hdrop _ h2 h4
  · have h4 := (mem_cleanCols _ _).mp h3
    simp only [addrNames, addrFieldNames, List.map_cons, List.map_nil,
      List.mem_cons, List.not_mem_nil, or_false] at hn
    rcases hn with rfl | rfl | rfl | rfl | rfl | rfl | rfl | rfl <;>
      simp [hdrop _ h1, addrNames, addrFieldNames] at h4 <;>
      exact hdrop _ h2 h4
  · simp [clean_template_df]

/-- Witness for C3 at a frame without any recognized source column. -/
theorem claim_c3_witness :
    (("TOTAL", "TOTAL_AMOUNT") ∈ amountPairs ∧ "TOTAL" ∉ dfPlain.cols) ∧
    ("TOTAL_AMOUNT" ∈ (clean_template_df dfPlain).cols ∧
      ∀ r2 ∈ (clean_template_df dfPlain).rows, r2 "TOTAL_AMOUNT" = none) :=
  ⟨⟨by decide, by decide⟩,
   (claim_c3_missing_columns dfPlain).1 "TOTAL" "TOTAL_AMOUNT" (by decide) (by decide)⟩

/-- C7: position by position, each cleaned row's `CURRENCY` value is the
first non-absent currency guess over the corresponding input row's monetary
source columns present in the input, taken in the fixed order
`TOTAL, SUB_TOTAL, TAX, DISCOUNT`; when no monetary source column is present
it is absent for every row. -/
theorem claim_c7_currency (df : Df) :
    (clean_template_df df).rows.map (fun r2 => r2 "CURRENCY")
      = df.rows.map (fun r =>
          ((monetarySrcs.filter (fun s => decide (s ∈ df.cols))).findSome?
            (fun s => (parseCell (r s)).2)).map CVal.S) ∧
    ((∀ s ∈ monetarySrcs, s ∉ df.cols) →
      ∀ r2 ∈ (clean_template_df df).rows, r2 "CURRENCY" = none) := by
  have hcur : ∀ r : Row, cleanRow (dropNoise df.cols) r "CURRENCY"
      = ((monetarySrcs.filter (fun s => decide (s ∈ df.cols))).findSome?
          (fun s => (parseCell (r s)).2)).map CVal.S := by
    intro r
    rw [cleanRow_currency, guessList_eq_map, monetary_filter_dropNoise,
      List.findSome?_map]
    rfl
  constructor
  · simp only [clean_template_df, List.map_map]
    exact List.map_congr_left fun r _ => hcur r
  · intro hnone r2 hr
    simp only [clean_template_df, List.mem_map] at hr
    obtain ⟨r, _, rfl⟩ := hr
    have hfil : monetarySrcs.filter (fun s => decide (s ∈ df.cols)) = [] := by
      rw [List.filter_eq_nil_iff]
      intro s hs
      simp [hnone s hs]
    rw [hcur r, hfil]
    rfl

/-- Witness for C7: the per-row map equality at a one-row frame whose only
monetary column is `TAX`, and the no-monetary-column clause at a frame
without monetary columns. -/
theorem claim_c7_witness :
    ((clean_template_df dfTax).rows.map (fun r2 => r2 "CURRENCY")
      = dfTax.rows.map (fun r =>
          ((monetarySrcs.filter (fun s => decide (s ∈ dfTax.cols))).findSome?
            (fun s => (parseCell (r s)).2)).map CVal.S)) ∧
    (∀ s ∈ monetarySrcs, s ∉ dfPlain.cols) ∧
    (∀ r2 ∈ (clean_template_df dfPlain).rows, r2 "CURRENCY" = none) :=
  ⟨(claim_c7_currency dfTax).1, by decide,
   (claim_c7_currency dfPlain).2 (by decide)⟩

/-- C9 counterexample: an input column named `CURRENCY` is overwritten by
the derived currency column, so its value does not pass through unchanged. -/
theorem claim_c9_counterexample :
    "CURRENCY" ∈ dfCur.cols ∧ "CURRENCY" ≠ "OTHER" ∧ "CURRENCY" ≠ "LOGO" ∧
    dfCur.rows.map (fun r => r "CURRENCY") = [some "EUR"] ∧
    (clean_template_df dfCur).rows.map (fun r2 => r2 "CURRENCY") = [none] := by
  refine ⟨by decide, by decide, by decide, by decide, ?_⟩
  simp only [clean_template_df, dfCur, List.map_cons, List.map_nil, List.cons.injEq,
    and_true]
  rw [cleanRow_currency]
  rfl

/-- C9 amended: every input column other than `OTHER`, `LOGO` and the names
the pipeline itself assigns (the amount targets, `CURRENCY`, the date
targets and the address columns) is present in the output with every row's
value unchanged; `OTHER` and `LOGO` are dropped. -/
theorem claim_c9_passthrough (df : Df) :
    (∀ c, c ∈ df.cols → c ∉ protectedNames →
      c ∈ (clean_template_df df).cols ∧
      (clean_template_df df).rows.map (fun r2 => r2 c)
        = df.rows.map (fun r => (r c).map CVal.S)) ∧
    "OTHER" ∉ (clean_template_df df).cols ∧
    "LOGO" ∉ (clean_template_df df).cols := by
  refine ⟨fun c hc hp => ⟨?_, ?_⟩, fun h => ?_, fun h => ?_⟩
  · have hcc : c ∈ dropNoise df.cols := (mem_dropNoise c df.cols).mpr
      ⟨hc, fun he => hp (by rw [he]; decide), fun he => hp (by rw [he]; decide)⟩
    exact (mem_cleanCols c (dropNoise df.cols)).mpr (Or.inl hcc)
  · simp only [clean_template_df, List.map_map]
    exact List.map_congr_left fun r _ =>
      cleanRow_passthrough (dropNoise df.cols) r c hp
  · have h2 := (mem_cleanCols _ _).mp h
    simp [mem_dropNoise, addrNames, addrFieldNames] at h2
  · have h2 := (mem_cleanCols _ _).mp h
    simp [mem_dropNoise, addrNames, addrFieldNames] at h2

/-- Witness for C9 at a one-row frame with an unrecognized column `FOO`. -/
theorem claim_c9_witness :
    ("FOO" ∈ dfFoo.cols ∧ "FOO" ∉ protectedNames) ∧
    ("FOO" ∈ (clean_template_df dfFoo).cols ∧
      (clean_template_df dfFoo).rows.map (fun r2 => r2 "FOO")
        = dfFoo.rows.map (fun r => (r "FOO").map CVal.S)) :=
  ⟨⟨by decide, by decide⟩,
   (claim_c9_passthrough dfFoo).1 "FOO" (by decide) (by decide)⟩

/-! Helper lemmas for the C4 round trip: a stringified pair is already
whitespace-normalized. -/

theorem getLast?_mem_of_eq (l : List Char) (a : Char) (h : l.getLast? = some a) :
    a ∈ l := by
  obtain ⟨hne, rfl⟩ := List.mem_getLast?_eq_getLast (x := a) (by rw [h]; rfl)
  exact List.getLast_mem hne

theorem collapseAux_eq_self (l : List Char) (h : ∀ ch ∈ l, isSpaceC ch = false) :
    ∀ b : Bool, collapseAux b l = l := by
  induction l with
  | nil => intro b; rfl
  | cons c cs ih =>
    intro b
    have hc := h c (List.mem_cons_self c cs)
    simp only [collapseAux, hc, Bool.false_eq_true, if_false]
    rw [ih (fun ch hm => h ch (List.mem_cons_of_mem c hm)) false]

theorem collapseAux_append_nonspace (A : List Char)
    (hA : ∀ ch ∈ A, isSpaceC ch = false) :
    ∀ (b : Bool) (B : List Char),
      collapseAux b (A ++ B) = A ++ collapseAux (if A.isEmpty then b else false) B := by
  induction A with
  | nil => intro b B; simp
  | cons a A2 ih =>
    intro b B
    have ha := hA a (List.mem_cons_self a A2)
    simp only [List.cons_append, collapseAux, ha, Bool.false_eq_true, if_false,
      List.append_eq]
    rw [ih (fun ch hm => hA ch (List.mem_cons_of_mem a hm)) false B]
    simp

theorem stripBoth_eq_self (p : Char → Bool) (l : List Char)
    (h1 : ∀ c, l.head? = some c → p c = false)
    (h2 : ∀ c, l.getLast? = some c → p c = false) : stripBoth p l = l := by
  unfold stripBoth
  have e1 : l.dropWhile p = l := by
    cases l with
    | nil => rfl
    | cons c cs =>
      rw [List.dropWhile_cons]
      simp [h1 c rfl]
  rw [e1]
  have e2 : l.reverse.dropWhile p = l.reverse := by
    cases hr : l.reverse with
    | nil => rfl
    | cons c cs =>
      have hlast : l.getLast? = some c := by
        rw [← List.head?_reverse, hr]
        rfl
      rw [List.dropWhile_cons]
      simp [h2 c hlast]
  rw [e2, List.reverse_reverse]

theorem renderAmount_chars (sgn : Bool) (ds fs : List Char)
    (hds : ∀ ch ∈ ds, ch ∈ digitChars) (hfs : ∀ ch ∈ fs, ch ∈ digitChars) :
    ∀ ch ∈ renderAmount sgn ds fs, ch ∈ digitChars ∨ ch = '-' ∨ ch = '.' := by
  intro ch hm
  unfold renderAmount at hm
  rcases List.mem_append.mp hm with hm1 | hm1
  · rcases List.mem_append.mp hm1 with hm2 | hm2
    · cases sgn with
      | true =>
        simp only [if_true] at hm2
        right; left
        simpa using hm2
      | false => simp at hm2
    · exact Or.inl (hds ch hm2)
  · rcases List.mem_cons.mp hm1 with hm2 | hm2
    · right; right; exact hm2
    · exact Or.inl (hfs ch hm2)

theorem renderAmount_nonspace (sgn : Bool) (ds fs : List Char)
    (hds : ∀ ch ∈ ds, ch ∈ digitChars) (hfs : ∀ ch ∈ fs, ch ∈ digitChars) :
    ∀ ch ∈ renderAmount sgn ds fs, isSpaceC ch = false := by
  have hdig : ∀ ch ∈ digitChars, isSpaceC ch = false := by decide
  intro ch hm
  rcases renderAmount_chars sgn ds fs hds hfs ch hm with h | h | h
  · exact hdig ch h
  · rw [h]; rfl
  · rw [h]; rfl

theorem renderAmount_ne_nil (sgn : Bool) (ds fs : List Char) (hds : ds ≠ []) :
    renderAmount sgn ds fs ≠ [] := by
  unfold renderAmount
  cases sgn <;> cases ds <;> simp_all

theorem renderAmount_head (sgn : Bool) (ds fs : List Char) (hds : ds ≠ [])
    (hdsd : ∀ ch ∈ ds, ch ∈ digitChars) :
    ∀ c, (renderAmount sgn ds fs).head? = some c → c ∈ digitChars ∨ c = '-' := by
  intro c hc
  cases ds with
  | nil => exact absurd rfl hds
  | cons d ds2 =>
    cases sgn with
    | true =>
      simp only [renderAmount, if_true, List.cons_append, List.head?_cons,
        Option.some.injEq] at hc
      exact Or.inr hc.symm
    | false =>
      simp only [renderAmount, Bool.false_eq_true, if_false, List.nil_append,
        List.cons_append, List.head?_cons, Option.some.injEq] at hc
      exact Or.inl (hc ▸ hdsd d (List.mem_cons_self d ds2))

theorem digit_nonspace : ∀ ch ∈ digitChars, isSpaceC ch = false := by decide

theorem code_chars_nonspace :
    ∀ k ∈ codeStrings, ∀ ch ∈ k.data, isSpaceC ch = false := by decide

theorem render_clean (sgn : Bool) (ds fs : List Char) (c : Option String)
    (hds : ds ≠ []) (hdsd : ∀ ch ∈ ds, ch ∈ digitChars)
    (hfs : fs ≠ []) (hfsd : ∀ ch ∈ fs, ch ∈ digitChars)
    (hc : c = none ∨ c ∈ codeStrings.map some) :
    cleanSpacesL (renderAmount sgn ds fs ++ renderTail c)
      = renderAmount sgn ds fs ++ renderTail c := by
  have hAns := renderAmount_nonspace sgn ds fs hdsd hfsd
  have hAne := renderAmount_ne_nil sgn ds fs hds
  have hAe : (renderAmount sgn ds fs).isEmpty = false := by
    cases hA2 : renderAmount sgn ds fs with
    | nil => exact absurd hA2 hAne
    | cons a A2 => rfl
  have hcol : collapseAux false (renderAmount sgn ds fs ++ renderTail c)
      = renderAmount sgn ds fs ++ renderTail c := by
    rw [collapseAux_append_nonspace (renderAmount sgn ds fs) hAns false (renderTail c),
      hAe]
    congr 1
    rcases hc with rfl | hck
    · rfl
    · obtain ⟨k, hk, rfl⟩ := List.mem_map.mp hck
      show collapseAux false (' ' :: k.data) = ' ' :: k.data
      have hsp : isSpaceC ' ' = true := rfl
      simp only [collapseAux, hsp, if_true, Bool.false_eq_true, if_false]
      rw [collapseAux_eq_self k.data (code_chars_nonspace k hk) true]
  unfold cleanSpacesL
  rw [hcol]
  apply stripBoth_eq_self
  · intro c2 hc2
    have hhead : (renderAmount sgn ds fs ++ renderTail c).head?
        = (renderAmount sgn ds fs).head? := by
      cases hA2 : renderAmount sgn ds fs with
      | nil => exact absurd hA2 hAne
      | cons a A2 => simp
    rw [hhead] at hc2
    rcases renderAmount_head sgn ds fs hds hdsd c2 hc2 with h | h
    · exact digit_nonspace c2 h
    · rw [h]; rfl
  · intro c2 hc2
    rcases hc with rfl | hck
    · simp only [renderTail, List.append_nil] at hc2
      have he : renderAmount sgn ds fs
          = ((if sgn then ['-'] else []) ++ ds ++ ['.']) ++ fs := by
        unfold renderAmount
        simp [List.append_assoc]
      rw [he, List.getLast?_append_of_ne_nil _ hfs] at hc2
      exact digit_nonspace c2 (hfsd c2 (getLast?_mem_of_eq fs c2 hc2))
    · obtain ⟨k, hk, rfl⟩ := List.mem_map.mp hck
      simp only [renderTail] at hc2
      rw [List.getLast?_append_of_ne_nil _ (List.cons_ne_nil ' ' k.data)] at hc2
      have hfact : ∀ k2 ∈ codeStrings,
          ((' ' :: k2.data).getLast?).all (fun ch => !isSpaceC ch) = true := by decide
      have h2 := hfact k hk
      rw [hc2] at h2
      simpa using h2

/-! Helper lemmas for the C4 round trip: currency detection on a
stringified pair finds exactly the stringified code. -/

theorem matchesHere_false_at (prev : Option Char) (a : Char) (l : List Char)
    (ha : a ∈ renderChars) :
    ∀ code ∈ codesList, matchesHere prev (a :: l) code = false := by
  intro code hcode
  have hkey : ∀ x ∈ renderChars,
      (('U' == upChar x) = false) ∧ (('E' == upChar x) = false) ∧
      (('I' == upChar x) = false) ∧ (('G' == upChar x) = false) ∧
      (('A' == upChar x) = false) ∧ (('S' == upChar x) = false) ∧
      (('C' == upChar x) = false) ∧ (('J' == upChar x) = false) := by decide
  have hx := hkey a ha
  simp only [codesList, List.mem_cons, List.not_mem_nil, or_false] at hcode
  rcases hcode with rfl | rfl | rfl | rfl | rfl | rfl | rfl | rfl | rfl | rfl <;>
    simp [matchesHere, startsWithUp, hx.1, hx.2.1, hx.2.2.1, hx.2.2.2.1,
      hx.2.2.2.2.1, hx.2.2.2.2.2.1, hx.2.2.2.2.2.2.1, hx.2.2.2.2.2.2.2]

theorem getLast?_or_cons (a : Char) (A : List Char) (prev : Option Char) :
    (a :: A).getLast?.or prev = A.getLast?.or (some a) := by
  cases A with
  | nil => rfl
  | cons b A2 => rw [List.getLast?_cons_cons]; rfl

theorem findCodeAux_skip (A : List Char) (hA : ∀ ch ∈ A, ch ∈ renderChars) :
    ∀ (prev : Option Char) (B : List Char),
      findCodeAux prev (A ++ B) = findCodeAux (A.getLast?.or prev) B := by
  induction A with
  | nil => intro prev B; rfl
  | cons a A2 ih =>
    intro prev B
    have ha := hA a (List.mem_cons_self a A2)
    have hfind : codesList.find?
        (fun code => matchesHere prev (a :: (A2 ++ B)) code) = none := by
      rw [List.find?_eq_none]
      intro code hcode
      simp [matchesHere_false_at prev a _ ha code hcode]
    simp only [List.cons_append, findCodeAux, List.append_eq, hfind]
    rw [ih (fun ch hm => hA ch (List.mem_cons_of_mem a hm)) (some a) B,
      getLast?_or_cons]

theorem findSymbol_none (l : List Char)
    (h : ∀ ch ∈ l, currencySymbols.contains ch = false) : findSymbol l = none := by
  induction l with
  | nil => rfl
  | cons c cs ih =>
    simp only [findSymbol, h c (List.mem_cons_self c cs), Bool.false_eq_true, if_false]
    exact ih (fun ch hm => h ch (List.mem_cons_of_mem c hm))

theorem renderAmount_mem_renderChars (sgn : Bool) (ds fs : List Char)
    (hdsd : ∀ ch ∈ ds, ch ∈ digitChars) (hfsd : ∀ ch ∈ fs, ch ∈ digitChars) :
    ∀ ch ∈ renderAmount sgn ds fs, ch ∈ renderChars := by
  intro ch hm
  rcases renderAmount_chars sgn ds fs hdsd hfsd ch hm with h | h | h
  · exact List.mem_append.mpr (Or.inl h)
  · rw [h]; decide
  · rw [h]; decide

theorem render_currency (sgn : Bool) (ds fs : List Char) (c : Option String)
    (hdsd : ∀ ch ∈ ds, ch ∈ digitChars) (hfsd : ∀ ch ∈ fs, ch ∈ digitChars)
    (hc : c = none ∨ c ∈ codeStrings.map some) :
    detectCurrency (renderAmount sgn ds fs ++ renderTail c) = c := by
  have hA := renderAmount_mem_renderChars sgn ds fs hdsd hfsd
  rcases hc with rfl | hck
  · have hcode : findCodeAux none (renderAmount sgn ds fs) = none := by
      rw [← List.append_nil (renderAmount sgn ds fs),
        findCodeAux_skip (renderAmount sgn ds fs) hA none []]
      rfl
    have hsym : findSymbol (renderAmount sgn ds fs) = none := by
      apply findSymbol_none
      intro ch hm
      have hfact : ∀ x ∈ renderChars, currencySymbols.contains x = false := by decide
      exact hfact ch (hA ch hm)
    simp [detectCurrency, renderTail, hcode, hsym]
  · obtain ⟨k, hk, rfl⟩ := List.mem_map.mp hck
    have hA2 : ∀ ch ∈ renderAmount sgn ds fs ++ [' '], ch ∈ renderChars := by
      intro ch hm
      rcases List.mem_append.mp hm with h | h
      · exact hA ch h
      · simp only [List.mem_singleton] at h
        rw [h]; decide
    have hfc : ∀ k2 ∈ codeStrings,
        findCodeAux ((some ' ').or none) k2.data = some k2.data := by decide
    have hcode : findCodeAux none (renderAmount sgn ds fs ++ renderTail (some k))
        = some k.data := by
      rw [show renderAmount sgn ds fs ++ renderTail (some k)
          = (renderAmount sgn ds fs ++ [' ']) ++ k.data by simp [renderTail]]
      rw [findCodeAux_skip (renderAmount sgn ds fs ++ [' ']) hA2 none k.data,
        List.getLast?_concat]
      exact hfc k hk
    simp only [detectCurrency, hcode]

/-! Helper lemmas for the C4 round trip: the numeric scan on a stringified
pair finds exactly the amount token. -/

theorem digit_isDigit : ∀ ch ∈ digitChars, ch.isDigit = true := by decide

theorem takeDigitsUpTo_exact (ds : List Char)
    (hd : ∀ ch ∈ ds, ch.isDigit = true) :
    ∀ (n : Nat) (rest : List Char), ds.length ≤ n →
      (∀ c, rest.head? = some c → c.isDigit = false) →
      takeDigitsUpTo n (ds ++ rest) = (ds, rest) := by
  induction ds with
  | nil =>
    intro n rest _ hr
    cases n with
    | zero => rfl
    | succ m =>
      cases rest with
      | nil => rfl
      | cons c cs => simp [takeDigitsUpTo, hr c rfl]
  | cons d ds2 ih =>
    intro n rest hlen hr
    cases n with
    | zero => exact absurd hlen (by simp)
    | succ m =>
      have hd1 := hd d (List.mem_cons_self d ds2)
      simp only [List.cons_append, takeDigitsUpTo, hd1, if_true, List.append_eq]
      rw [ih (fun ch hm => hd ch (List.mem_cons_of_mem d hm)) m rest
        (Nat.le_of_succ_le_succ hlen) hr]

theorem takeWhile_append_exact (p : Char → Bool) (A B : List Char)
    (hA : ∀ ch ∈ A, p ch = true) (hB : ∀ c, B.head? = some c → p c = false) :
    (A ++ B).takeWhile p = A ∧ (A ++ B).dropWhile p = B := by
  induction A with
  | nil =>
    cases B with
    | nil => exact ⟨rfl, rfl⟩
    | cons c cs =>
      simp [List.takeWhile_cons, List.dropWhile_cons, hB c rfl]
  | cons a A2 ih =>
    have ha := hA a (List.mem_cons_self a A2)
    have ih2 := ih (fun ch hm => hA ch (List.mem_cons_of_mem a hm))
    simp [List.takeWhile_cons, List.dropWhile_cons, ha, ih2.1, ih2.2]

theorem digit_scan_facts :
    ∀ x ∈ digitChars, (x == '-' || x == '+') = false ∧ x.isDigit = true ∧
      (x == ',') = false ∧ (x == '(') = false := by decide

theorem matchCore_render (ds fs tail : List Char) (hds : ds ≠ [])
    (hlen : ds.length ≤ 3) (hdsd : ∀ ch ∈ ds, ch ∈ digitChars)
    (hfs : fs ≠ []) (hfsd : ∀ ch ∈ fs, ch ∈ digitChars)
    (htail : ∀ c, tail.head? = some c → c.isDigit = false) :
    matchCore (ds ++ '.' :: fs ++ tail) = some (ds ++ '.' :: fs, tail) := by
  have hdig : ∀ ch ∈ ds, ch.isDigit = true :=
    fun ch hm => digit_isDigit ch (hdsd ch hm)
  have hfdig : ∀ ch ∈ fs, ch.isDigit = true :=
    fun ch hm => digit_isDigit ch (hfsd ch hm)
  have h1 : takeDigitsUpTo 3 (ds ++ ('.' :: (fs ++ tail))) = (ds, '.' :: (fs ++ tail)) := by
    apply takeDigitsUpTo_exact ds hdig 3 _ hlen
    intro c hc
    simp only [List.head?_cons, Option.some.injEq] at hc
    rw [← hc]; rfl
  cases ds with
  | nil => exact absurd rfl hds
  | cons d ds2 =>
    cases fs with
    | nil => exact absurd rfl hfs
    | cons f fs2 =>
      have hf1 := digit_isDigit f (hfsd f (List.mem_cons_self f fs2))
      have htw := takeWhile_append_exact Char.isDigit (f :: fs2) tail hfdig htail
      simp only [List.append_assoc, List.cons_append, List.nil_append] at htw h1 ⊢
      unfold matchCore
      rw [h1]
      simp only [takeGroups, takeFrac, hf1, if_true, htw.1, htw.2]
      simp

theorem matchNum_render (sgn : Bool) (ds fs tail : List Char) (hds : ds ≠ [])
    (hlen : ds.length ≤ 3) (hdsd : ∀ ch ∈ ds, ch ∈ digitChars)
    (hfs : fs ≠ []) (hfsd : ∀ ch ∈ fs, ch ∈ digitChars)
    (htail : ∀ c, tail.head? = some c → c.isDigit = false) :
    matchNum (renderAmount sgn ds fs ++ tail)
      = some (renderAmount sgn ds fs, tail) := by
  have hcore := matchCore_render ds fs tail hds hlen hdsd hfs hfsd htail
  cases ds with
  | nil => exact absurd rfl hds
  | cons d ds2 =>
    have hd := digit_scan_facts d (hdsd d (List.mem_cons_self d ds2))
    cases sgn with
    | true =>
      show matchNum ('-' :: ((d :: ds2) ++ '.' :: fs) ++ tail) = _
      simp only [List.cons_append, List.append_assoc] at hcore ⊢
      simp only [matchNum]
      rw [show (('-' : Char) == '-' || ('-' : Char) == '+') = true from rfl]
      simp only [if_true, hd.2.1, if_true, hcore]
      simp [renderAmount]
    | false =>
      show matchNum (((d :: ds2) ++ '.' :: fs) ++ tail) = _
      simp only [List.cons_append, List.append_assoc] at hcore ⊢
      simp only [matchNum, hd.1, Bool.false_eq_true, if_false, hd.2.1, if_true, hcore]
      simp [renderAmount]

theorem scanAux_step (n : Nat) (l tok rest : List Char)
    (hm : matchNum l = some (tok, rest)) (hne : l ≠ []) :
    scanAux (n + 1) l = tok :: scanAux n rest := by
  cases l with
  | nil => exact absurd rfl hne
  | cons c cs => simp [scanAux, hm]

theorem renderTail_head (c : Option String) :
    ∀ ch, (renderTail c).head? = some ch → ch.isDigit = false := by
  intro ch hm
  cases c with
  | none => simp [renderTail] at hm
  | some k =>
    simp only [renderTail, List.head?_cons, Option.some.injEq] at hm
    rw [← hm]; rfl

theorem renderTail_no_digit (c : Option String)
    (hc : c = none ∨ c ∈ codeStrings.map some) :
    ∀ ch ∈ renderTail c, ch.isDigit = false := by
  rcases hc with rfl | hck
  · intro ch hm; simp [renderTail] at hm
  · obtain ⟨k, hk, rfl⟩ := List.mem_map.mp hck
    have hfact : ∀ k2 ∈ codeStrings, ∀ ch ∈ ' ' :: k2.data, ch.isDigit = false := by
      decide
    intro ch hm
    exact hfact k hk ch hm

theorem findNums_render (sgn : Bool) (ds fs : List Char) (c : Option String)
    (hds : ds ≠ []) (hlen : ds.length ≤ 3) (hdsd : ∀ ch ∈ ds, ch ∈ digitChars)
    (hfs : fs ≠ []) (hfsd : ∀ ch ∈ fs, ch ∈ digitChars)
    (hc : c = none ∨ c ∈ codeStrings.map some) :
    findNums (renderAmount sgn ds fs ++ renderTail c) = [renderAmount sgn ds fs] := by
  have hmn := matchNum_render sgn ds fs (renderTail c) hds hlen hdsd hfs hfsd
    (renderTail_head c)
  have hne : renderAmount sgn ds fs ++ renderTail c ≠ [] := by
    intro h
    exact renderAmount_ne_nil sgn ds fs hds (List.append_eq_nil.mp h).1
  obtain ⟨m, hm⟩ : ∃ m, (renderAmount sgn ds fs ++ renderTail c).length = m + 1 := by
    cases hL : (renderAmount sgn ds fs ++ renderTail c).length with
    | zero => exact absurd (List.length_eq_zero.mp hL) hne
    | succ m => exact ⟨m, rfl⟩
  unfold findNums
  rw [hm, scanAux_step m _ _ _ hmn hne,
    scanAux_of_no_digit m (renderTail c) (renderTail_no_digit c hc)]

theorem parseFloat_render (sgn : Bool) (ds fs : List Char)
    (hds : ds ≠ []) (hdsd : ∀ ch ∈ ds, ch ∈ digitChars)
    (hfs : fs ≠ []) (hfsd : ∀ ch ∈ fs, ch ∈ digitChars) :
    parseFloat (renderAmount sgn ds fs) = some (decVal sgn ds fs) := by
  have hdig : ∀ ch ∈ ds, ch.isDigit = true :=
    fun ch hm => digit_isDigit ch (hdsd ch hm)
  have hfdig : ∀ ch ∈ fs, ch.isDigit = true :=
    fun ch hm => digit_isDigit ch (hfsd ch hm)
  have htw := takeWhile_append_exact Char.isDigit ds ('.' :: fs) hdig
    (by intro c hc; simp only [List.head?_cons, Option.some.injEq] at hc; rw [← hc]; rfl)
  have htw2 : fs.takeWhile Char.isDigit = fs ∧ fs.dropWhile Char.isDigit = [] := by
    have h := takeWhile_append_exact Char.isDigit fs [] hfdig (by intro c hc; simp at hc)
    simpa using h
  cases ds with
  | nil => exact absurd rfl hds
  | cons d ds2 =>
    have hd := digit_scan_facts d (hdsd d (List.mem_cons_self d ds2))
    cases fs with
    | nil => exact absurd rfl hfs
    | cons f fs2 =>
      cases sgn with
      | true =>
        show parseFloat ('-' :: ((d :: ds2) ++ '.' :: (f :: fs2))) = _
        simp only [List.cons_append] at htw ⊢
        simp only [parseFloat]
        rw [show (('-' : Char) == '-') = true from rfl]
        simp only [if_true, htw.1, htw.2]
        simp [htw2.1, htw2.2, decVal]
      | false =>
        show parseFloat ((d :: ds2) ++ '.' :: (f :: fs2)) = _
        have hne1 : ((d : Char) == '-') = false := by
          have := hd.1
          simp only [Bool.or_eq_false_iff] at this
          exact this.1
        have hne2 : ((d : Char) == '+') = false := by
          have := hd.1
          simp only [Bool.or_eq_false_iff] at this
          exact this.2
        simp only [List.cons_append] at htw ⊢
        simp only [parseFloat, hne1, hne2, Bool.false_eq_true, if_false]
        rw [htw.1, htw.2]
        simp [htw2.1, htw2.2, decVal]

/-! Helper lemmas for the C4 round trip: the discount condition is false on
a stringified pair. -/

theorem startsWithL_subset (pat : List Char) :
    ∀ l : List Char, startsWithL pat l = true → ∀ p ∈ pat, p ∈ l := by
  induction pat with
  | nil => intro l _ p hp; simp at hp
  | cons q qs ih =>
    intro l hs p hp
    cases l with
    | nil => simp [startsWithL] at hs
    | cons c cs =>
      simp only [startsWithL, Bool.and_eq_true, beq_iff_eq] at hs
      rcases List.mem_cons.mp hp with rfl | hp2
      · rw [hs.1]; exact List.mem_cons_self c cs
      · exact List.mem_cons_of_mem c (ih cs hs.2 p hp2)

theorem containsL_subset (pat l : List Char) (h : containsL pat l = true) :
    ∀ p ∈ pat, p ∈ l := by
  induction l with
  | nil =>
    intro p hp
    simp only [containsL, List.isEmpty_iff] at h
    rw [h] at hp
    simp at hp
  | cons c cs ih =>
    intro p hp
    simp only [containsL, Bool.or_eq_true] at h
    rcases h with h2 | h2
    · exact startsWithL_subset pat (c :: cs) h2 p hp
    · exact List.mem_cons_of_mem c (ih h2 p hp)

theorem containsL_false_of (pat l : List Char) (p0 : Char) (hp : p0 ∈ pat)
    (h : p0 ∉ l) : containsL pat l = false := by
  cases hc : containsL pat l with
  | false => rfl
  | true => exact absurd (containsL_subset pat l hc p0 hp) h

theorem parenMinusScan_false (l : List Char) (h : ∀ ch ∈ l, (ch == '(') = false) :
    parenMinusScan l = false := by
  induction l with
  | nil => rfl
  | cons c cs ih =>
    simp only [parenMinusScan, h c (List.mem_cons_self c cs), Bool.false_and,
      Bool.false_or]
    exact ih (fun ch hm => h ch (List.mem_cons_of_mem c hm))

theorem render_discount (sgn : Bool) (ds fs : List Char) (c : Option String)
    (hdsd : ∀ ch ∈ ds, ch ∈ digitChars) (hfsd : ∀ ch ∈ fs, ch ∈ digitChars)
    (hc : c = none ∨ c ∈ codeStrings.map some) :
    discountFlag (renderAmount sgn ds fs ++ renderTail c) = false := by
  have hrender : ∀ x ∈ renderChars, upChar x ≠ 'O' ∧ x ≠ '(' ∧ (x == '(') = false := by
    decide
  have htail : ∀ ch ∈ renderTail c, upChar ch ≠ 'O' ∧ ch ≠ '(' ∧ (ch == '(') = false := by
    rcases hc with rfl | hck
    · intro ch hm; simp [renderTail] at hm
    · obtain ⟨k, hk, rfl⟩ := List.mem_map.mp hck
      have hfact : ∀ k2 ∈ codeStrings, ∀ ch ∈ ' ' :: k2.data,
          upChar ch ≠ 'O' ∧ ch ≠ '(' ∧ (ch == '(') = false := by decide
      intro ch hm
      exact hfact k hk ch hm
  have hall : ∀ ch ∈ renderAmount sgn ds fs ++ renderTail c,
      upChar ch ≠ 'O' ∧ ch ≠ '(' ∧ (ch == '(') = false := by
    intro ch hm
    rcases List.mem_append.mp hm with h | h
    · exact hrender ch (renderAmount_mem_renderChars sgn ds fs hdsd hfsd ch h)
    · exact htail ch h
  have hO : ('O' : Char) ∉ upList (renderAmount sgn ds fs ++ renderTail c) := by
    intro hm
    obtain ⟨ch, hch, he⟩ := List.mem_map.mp hm
    exact (hall ch hch).1 he
  have hP : ('(' : Char) ∉ renderAmount sgn ds fs ++ renderTail c := by
    intro hm
    exact (hall '(' hm).2.1 rfl
  unfold discountFlag
  rw [containsL_false_of discountPat _ 'O' (by decide) hO,
    containsL_false_of parenMinusLit _ '(' (by decide) hP,
    parenMinusScan_false _ (fun ch hm => (hall ch hm).2.2)]
  rfl

/-- C4 counterexample: the pair `(1234.56, none)` is produced by the parser
(from `"1,234.56"`); re-stringifying it without thousands separators gives
`"1234.56"`, and reparsing that text does not return the same pair (the
regex splits the ungrouped number and yields 4.56). -/
theorem claim_c4_counterexample :
    parse_amount_and_currency "1,234.56" = (some (30864/25 : ℚ), none) ∧
    specStringifyPair false ['1', '2', '3', '4'] ['5', '6'] none = "1234.56" ∧
    parse_amount_and_currency "1234.56" ≠ (some (30864/25 : ℚ), none) :=
  ⟨by decide, by decide, by decide⟩

/-- C4 amended: re-stringifying and reparsing returns the same pair for
amounts whose integer part has at most three digits (and any currency from
the whitelist, or none).  For longer integer parts the regex splits the
ungrouped number and the round trip fails. -/
theorem claim_c4_roundtrip (sgn : Bool) (ds fs : List Char) (c : Option String)
    (hds : ds ≠ []) (hlen : ds.length ≤ 3) (hdsd : ∀ ch ∈ ds, ch ∈ digitChars)
    (hfs : fs ≠ []) (hfsd : ∀ ch ∈ fs, ch ∈ digitChars)
    (hc : c = none ∨ c ∈ codeStrings.map some) :
    parse_amount_and_currency (specStringifyPair sgn ds fs c)
      = (some (decVal sgn ds fs), c) := by
  have hdata : (specStringifyPair sgn ds fs c).data
      = renderAmount sgn ds fs ++ renderTail c := rfl
  have hclean := render_clean sgn ds fs c hds hdsd hfs hfsd hc
  have hcur := render_currency sgn ds fs c hdsd hfsd hc
  have hnums := findNums_render sgn ds fs c hds hlen hdsd hfs hfsd hc
  have hfloat := parseFloat_render sgn ds fs hds hdsd hfs hfsd
  have hdisc := render_discount sgn ds fs c hdsd hfsd hc
  have hfilter : (renderAmount sgn ds fs).filter (fun ch => !(ch == ','))
      = renderAmount sgn ds fs := by
    apply List.filter_eq_self.mpr
    intro ch hm
    have hfact : ∀ x ∈ renderChars, (!(x == ',')) = true := by decide
    exact hfact ch (renderAmount_mem_renderChars sgn ds fs hdsd hfsd ch hm)
  have hne : renderAmount sgn ds fs ++ renderTail c ≠ [] := fun h =>
    renderAmount_ne_nil sgn ds fs hds (List.append_eq_nil.mp h).1
  simp only [parse_amount_and_currency, hdata, hclean, if_neg hne, hnums,
    List.getLast?_singleton, hfilter, hfloat, hdisc, Bool.false_eq_true, if_false,
    hcur]

/-- Witness for C4 at the pair `(12.5, USD)`. -/
theorem claim_c4_witness :
    (['1', '2'] ≠ ([] : List Char)) ∧ ['1', '2'].length ≤ 3 ∧
    (∀ ch ∈ ['1', '2'], ch ∈ digitChars) ∧ (['5'] ≠ ([] : List Char)) ∧
    (∀ ch ∈ ['5'], ch ∈ digitChars) ∧
    ((some "USD" : Option String) = none ∨ some "USD" ∈ codeStrings.map some) ∧
    parse_amount_and_currency (specStringifyPair false ['1', '2'] ['5'] (some "USD"))
      = (some (decVal false ['1', '2'] ['5']), some "USD") :=
  ⟨by decide, by decide, by decide, by decide, by decide, by decide,
   claim_c4_roundtrip false ['1', '2'] ['5'] (some "USD") (by decide) (by decide)
     (by decide) (by decide) (by decide) (by decide)⟩

/-- Witness for C10 on a concrete record. -/
theorem claim_c10_witness :
    ("A", Json.obj [("bbox", Json.other "[0, 0, 1, 1]")]) ∈ recW ∧
    ([(("bbox" : String), Json.other "[0, 0, 1, 1]")].lookup "text" = none) ∧
    ("A", Json.str "") ∈ extract_text_fields recW :=
  ⟨by simp [recW], by rfl,
   (claim_c10_flattener recW).1 "A" [("bbox", Json.other "[0, 0, 1, 1]")]
     (by simp [recW]) (by rfl)⟩

